import Mathlib

/-!
Verification of the windowed, pipelined SFTP bulk-download engine of
`src/plugins/web/ftp.py` (`SFTPFileDownloader` and
`SFTPPlugin.download_large_file`).

The downloader is shallowly embedded as a state machine.  The mutable
attributes of the Python object (`requested_chunks`, `received_chunks`,
`saved_exception`) together with the loop locals of `download`
(`requested_size`, `received_size`), the paramiko client's bookkeeping the
code manipulates directly (`_expecting`, `request_number`) and the bytes
written to the output sink are collected in `DLState`.  Inbound protocol
responses are modelled as an explicit list of packets: each iteration of the
download loop consumes exactly one packet, mirroring one call to
`sftp._read_response()` (which reads a single packet and dispatches it to
`_async_response` when its request id is registered in `_expecting`).
An empty packet list at a read models `_read_response` blocking forever.

The two inner `while` loops of `download` are embedded as fuel-indexed
structural recursions whose fuel is the exact loop variant
(`DOWNLOAD_MAX_REQUESTS - (len(requested_chunks) + len(received_chunks))`
for the dispatch loop, `len(received_chunks)` for the drain loop); the
lemmas `dispatchLoop_post` and `drainLoop_post` prove that the returned
state falsifies the corresponding loop guard, i.e. that the fuel never runs
out while the guard still holds.
-/

namespace PyUtils

/-- Association-list lookup, embedding Python `dict[key]` access for the
integer-keyed dicts used by the downloader. -/
def lookupA {α : Type} (k : Nat) : List (Nat × α) → Option α
  | [] => none
  | (k', v) :: rest => if k' = k then some v else lookupA k rest

/-- Association-list removal, embedding Python `dict.pop(key, None)`'s
mutation (keys are unique in all reachable states). -/
def eraseA {α : Type} (k : Nat) : List (Nat × α) → List (Nat × α)
  | [] => []
  | (k', v) :: rest => if k' = k then rest else (k', v) :: eraseA k rest

/-- A contiguous slice of a byte list: `l[off : off+len]`. -/
def sliceL (l : List Nat) (off len : Nat) : List Nat := (l.drop off).take len

/-- Exceptions that the downloader code can raise or store. -/
inductive PyErr where
  /-- Exception raised by `sftp._convert_status` for a status packet and
  stored in `saved_exception`; the payload abstracts the status code. -/
  | statusError (code : Nat)
  /-- `paramiko.SFTPError('Expected data')` for a packet that is neither
  `CMD_STATUS` nor `CMD_DATA`. -/
  | expectedData
  /-- `paramiko.SFTPError('Invalid data block size. Expected {sz} bytes, but
  it has {got} size')`. -/
  | invalidBlockSize (expected got : Nat)
  /-- `ValueError('SFTP communication error. The queue with requested file
  chunks is empty and the received chunks queue is full ...')`. -/
  | commError
  /-- `IOError('file size mismatch: {remote} != {localSize}')` raised in
  `SFTPPlugin.download_large_file`. -/
  | fileSizeMismatch (remote localSize : Nat)
  deriving DecidableEq, Repr

/-- One inbound SFTP response as seen by `_async_response`: a status packet
(`none` = OK status, `some code` = `_convert_status` raises), a data packet
with its payload, or any other packet type. -/
inductive SFTPResp where
  | status (err : Option Nat)
  | data (d : List Nat)
  | other
  deriving DecidableEq, Repr

/-- A packet on the wire: the request id it answers, and the response. -/
abbrev Packet := Nat × SFTPResp

/-- The downloader state: object attributes of `SFTPFileDownloader`, the
loop locals of `download`, the paramiko bookkeeping the code uses
(`_expecting`, `request_number`), and the bytes written to `f_out`. -/
structure DLState where
  /-- Loop local `requested_size`: next offset not yet requested. -/
  requested_size : Nat
  /-- Loop local `received_size`: next offset not yet written. -/
  received_size : Nat
  /-- `self.requested_chunks`: request id ↦ (offset, size). -/
  requested_chunks : List (Nat × Nat × Nat)
  /-- `self.received_chunks`: offset ↦ (offset, size, data). -/
  received_chunks : List (Nat × Nat × Nat × List Nat)
  /-- `self.saved_exception` (only `_convert_status` errors are saved). -/
  saved_exception : Option Nat
  /-- Request ids registered in `sftp_client._expecting` and not yet
  answered. -/
  expecting : List Nat
  /-- `sftp_client.request_number`. -/
  request_number : Nat
  /-- Concatenated bytes written to `f_out`. -/
  out_bytes : List Nat
  deriving DecidableEq, Repr

/-- The state at the start of `download`. -/
def initState : DLState :=
  { requested_size := 0, received_size := 0, requested_chunks := [],
    received_chunks := [], saved_exception := none, expecting := [],
    request_number := 0, out_bytes := [] }

/-- Embeds `_sftp_async_read_request`: allocate `num = request_number`,
register `_expecting[num]`, increment `request_number`, send the read
packet, return `num`. -/
def sftp_async_read_request (s : DLState) : Nat × DLState :=
  let num := s.request_number
  (num, { s with expecting := num :: s.expecting, request_number := num + 1 })

/-- One iteration of the dispatch `while` body in `download` (lines
145-153): compute `chunk_size`, issue the read request, record the chunk in
`requested_chunks`, advance `requested_size`. -/
def dispatchOne (maxChunk fs : Nat) (s : DLState) : DLState :=
  let chunk_size := min maxChunk (fs - s.requested_size)
  let ns := sftp_async_read_request s
  { ns.2 with
    requested_chunks := (ns.1, s.requested_size, chunk_size) :: ns.2.requested_chunks,
    requested_size := s.requested_size + chunk_size }

/-- The inner dispatch `while` loop, structurally recursive on a fuel that
is the loop variant `maxReq - (len requested + len received)`; each
iteration grows `requested_chunks` by one, so the variant strictly
decreases while the guard holds. -/
def dispatchGo (maxReq maxChunk fs : Nat) : Nat → DLState → DLState
  | 0, s => s
  | fuel + 1, s =>
    if s.requested_chunks.length + s.received_chunks.length < maxReq ∧
        s.requested_size < fs then
      dispatchGo maxReq maxChunk fs fuel (dispatchOne maxChunk fs s)
    else s

/-- The dispatch loop of `download` lines 143-153 (`while len(requested) +
len(received) < DOWNLOAD_MAX_REQUESTS and requested_size < file_size`). -/
def dispatchLoop (maxReq maxChunk fs : Nat) (s : DLState) : DLState :=
  dispatchGo maxReq maxChunk fs
    (maxReq - (s.requested_chunks.length + s.received_chunks.length)) s

/-- Embeds `_async_response` (lines 196-216).  Returns the updated state and
the exception it raises, if any.  A status packet feeds `_convert_status`
and stores any resulting exception in `saved_exception` (the request id is
not consulted and `requested_chunks` is not touched).  A data packet pops
its pending request; a missing id is ignored; a declared-size mismatch
raises `SFTPError` after the pop; otherwise the chunk is buffered in
`received_chunks` keyed by its offset. -/
def async_response (s : DLState) (num : Nat) (r : SFTPResp) : DLState × Option PyErr :=
  match r with
  | .status none => (s, none)
  | .status (some code) => ({ s with saved_exception := some code }, none)
  | .other => (s, some .expectedData)
  | .data d =>
    match lookupA num s.requested_chunks with
    | none => (s, none)
    | some (off, sz) =>
      let s1 := { s with requested_chunks := eraseA num s.requested_chunks }
      if sz = d.length then
        ({ s1 with received_chunks := (off, off, sz, d) :: s1.received_chunks }, none)
      else
        (s1, some (.invalidBlockSize sz d.length))

/-- Embeds one call to `sftp._read_response()` (paramiko, `waitfor=None`) on
one inbound packet: a request id not in `_expecting` is dropped; otherwise
the id is unregistered and the packet is handed to `_async_response`. -/
def read_response (s : DLState) (p : Packet) : DLState × Option PyErr :=
  if p.1 ∈ s.expecting then
    async_response { s with expecting := s.expecting.erase p.1 } p.1 p.2
  else (s, none)

/-- Embeds `_check_exception` (lines 218-222): re-raise and clear any saved
exception. -/
def check_exception (s : DLState) : DLState × Option PyErr :=
  match s.saved_exception with
  | some code => ({ s with saved_exception := none }, some (.statusError code))
  | none => (s, none)

/-- The drain `while` loop of `download` (lines 158-167), structurally
recursive on a fuel that is the loop variant `len received_chunks`; each
iteration pops one entry.  Pops the chunk buffered at exactly
`received_size`, writes its data and advances the cursor by the stored
size; stops at the first gap. -/
def drainGo : Nat → DLState → DLState
  | 0, s => s
  | fuel + 1, s =>
    match lookupA s.received_size s.received_chunks with
    | none => s
    | some (_off, sz, d) =>
      drainGo fuel
        { s with received_chunks := eraseA s.received_size s.received_chunks,
                 out_bytes := s.out_bytes ++ d,
                 received_size := s.received_size + sz }

/-- The drain loop of `download` lines 158-167. -/
def drainLoop (s : DLState) : DLState :=
  drainGo s.received_chunks.length s

/-- How one run of the download loop ends. -/
inductive LoopExit where
  /-- `return received_size` (line 176). -/
  | done (n : Nat)
  /-- An exception propagates out of the loop. -/
  | raised (e : PyErr)
  /-- `_read_response()` is called with no inbound packet ever arriving:
  the loop blocks forever. -/
  | blocked
  deriving DecidableEq, Repr

/-- True exactly for the `ValueError('SFTP communication error ...')`
exit. -/
def LoopExit.isCommErr : LoopExit → Bool
  | .raised .commError => true
  | _ => false

/-- The outer `while True` loop of `download` (lines 142-176), consuming one
inbound packet per iteration: dispatch until the window is full, read one
response, re-raise any saved exception, drain contiguous chunks to the
sink, return when `received_size >= file_size`, raise `ValueError` when no
request is pending yet the received buffer is full, else iterate. -/
def downloadLoop (maxReq maxChunk fs : Nat) (s : DLState) :
    List Packet → LoopExit × DLState
  | [] => (.blocked, dispatchLoop maxReq maxChunk fs s)
  | p :: rest =>
    match read_response (dispatchLoop maxReq maxChunk fs s) p with
    | (s2, some e) => (.raised e, s2)
    | (s2, none) =>
      match check_exception s2 with
      | (s3, some e) => (.raised e, s3)
      | (s3, none) =>
        let s4 := drainLoop s3
        if fs ≤ s4.received_size then (.done s4.received_size, s4)
        else if s4.requested_chunks = [] ∧ maxReq ≤ s4.received_chunks.length then
          (.raised .commError, s4)
        else downloadLoop maxReq maxChunk fs s4 rest

/-- `SFTPFileDownloader.DOWNLOAD_MAX_REQUESTS` (line 125). -/
def DOWNLOAD_MAX_REQUESTS : Nat := 48

/-- `SFTPFileDownloader.DOWNLOAD_MAX_CHUNK_SIZE` (line 126). -/
def DOWNLOAD_MAX_CHUNK_SIZE : Nat := 0x8000

/-- `SFTPFileDownloader.download` run from a fresh downloader on a file of
declared size `fs`, with `packets` the inbound responses in arrival
order. -/
def download (fs : Nat) (packets : List Packet) : LoopExit × DLState :=
  downloadLoop DOWNLOAD_MAX_REQUESTS DOWNLOAD_MAX_CHUNK_SIZE fs initState packets

/-- Result of `SFTPPlugin.download_large_file`. -/
inductive DLFResult where
  | ok (n : Nat)
  | raisedErr (e : PyErr)
  | hang
  deriving DecidableEq, Repr

/-- Embeds `SFTPPlugin.download_large_file` (lines 75-90): stat the remote
file (`remote_stat_size`), run `SFTPFileDownloader.download` (whose own
`f_in.stat()` call yields `inner_stat_size`), then compare the remote size
with the size of the local file (the bytes written) and raise `IOError`
exactly when they differ. -/
def download_large_file (remote_stat_size inner_stat_size : Nat)
    (packets : List Packet) : DLFResult :=
  match download inner_stat_size packets with
  | (.blocked, _) => .hang
  | (.raised e, _) => .raisedErr e
  | (.done _, s) =>
    if remote_stat_size = s.out_bytes.length then .ok s.out_bytes.length
    else .raisedErr (.fileSizeMismatch remote_stat_size s.out_bytes.length)

/-- The honest response to the `k`-th read request of a transfer: requests
are issued in strictly increasing offset order, so request id `k` covers
offset `k * maxChunk` and the server's data payload is exactly that slice
of the file.  Quantifying over an arbitrary list of ids delivered in
arbitrary order models every interleaving and reordering (including
duplicates and ids never requested) of a faithful server's responses. -/
def chunkAt (maxChunk : Nat) (file : List Nat) (k : Nat) : Packet :=
  (k, .data (sliceL file (k * maxChunk) (min maxChunk (file.length - k * maxChunk))))

/-! ### Observable instants of the download loop

Each constructor of `DLStep` is one atomic state change performed by the
loop body: one dispatch iteration (guarded as in the source), the delivery
of one arbitrary inbound packet, one `_check_exception` call, and one drain
iteration.  `Reach` is the set of states observable at any instant of any
run of the loop, for any file size and any inbound traffic. -/

inductive DLStep (maxReq maxChunk fs : Nat) : DLState → DLState → Prop where
  | dispatch (s : DLState)
      (h : s.requested_chunks.length + s.received_chunks.length < maxReq ∧
        s.requested_size < fs) :
      DLStep maxReq maxChunk fs s (dispatchOne maxChunk fs s)
  | deliver (s : DLState) (p : Packet) :
      DLStep maxReq maxChunk fs s (read_response s p).1
  | checkErr (s : DLState) :
      DLStep maxReq maxChunk fs s (check_exception s).1
  | drainOne (s : DLState) (off sz : Nat) (d : List Nat)
      (h : lookupA s.received_size s.received_chunks = some (off, sz, d)) :
      DLStep maxReq maxChunk fs s
        { s with received_chunks := eraseA s.received_size s.received_chunks,
                 out_bytes := s.out_bytes ++ d,
                 received_size := s.received_size + sz }

/-- States observable at some instant of the download loop. -/
def Reach (maxReq maxChunk fs : Nat) (s : DLState) : Prop :=
  Relation.ReflTransGen (DLStep maxReq maxChunk fs) initState s

/-- Bookkeeping invariant of the loop, strong enough for the cursor
ordering and the window bound. -/
structure InvA (maxReq fs : Nat) (s : DLState) : Prop where
  h1 : s.received_size ≤ s.requested_size
  h2 : s.requested_size ≤ fs
  h3 : s.requested_chunks.length + s.received_chunks.length ≤ maxReq
  h4 : ∀ num off sz, (num, off, sz) ∈ s.requested_chunks →
    off + sz ≤ s.requested_size
  h5 : ∀ key off sz d, (key, off, sz, d) ∈ s.received_chunks →
    off = key ∧ off + sz ≤ s.requested_size

/-! ### Chunk-accounting invariant

Requests are issued for consecutive chunks in offset order, so the `k`-th
request (request id `k`) always covers offset `k * c` with size
`min c (fs - k * c)`.  `InvB` records this, together with: some `W`
requests are fully written (`received_size = min fs (W * c)`), and every
chunk index in `[W, request_number)` sits in exactly one of
`requested_chunks` (still pending) or `received_chunks` (buffered). -/

structure InvB (c fs : Nat) (s : DLState) : Prop where
  hreq : s.requested_size = min fs (s.request_number * c)
  hin : ∀ k, k < s.request_number → k * c < fs
  ndreq : (s.requested_chunks.map Prod.fst).Nodup
  ndrecv : (s.received_chunks.map Prod.fst).Nodup
  hW : ∃ W, W ≤ s.request_number ∧ s.received_size = min fs (W * c) ∧
    (∀ num off sz, (num, off, sz) ∈ s.requested_chunks →
      W ≤ num ∧ num < s.request_number ∧ off = num * c ∧
        sz = min c (fs - num * c)) ∧
    (∀ key off sz d, (key, off, sz, d) ∈ s.received_chunks →
      ∃ k, W ≤ k ∧ k < s.request_number ∧ key = k * c ∧ off = k * c ∧
        sz = min c (fs - k * c) ∧ d.length = min c (fs - k * c)) ∧
    (∀ k, W ≤ k → k < s.request_number →
      (∃ off sz, (k, off, sz) ∈ s.requested_chunks) ∨
      (∃ off sz d, (k * c, off, sz, d) ∈ s.received_chunks)) ∧
    (∀ k off sz off2 sz2 d, (k, off, sz) ∈ s.requested_chunks →
      (k * c, off2, sz2, d) ∈ s.received_chunks → False)

/-! ### Honest-server runs

For the round-trip property the schedule is an arbitrary list of request
ids; each is answered, at the moment it is consumed, with the payload a
faithful server sends for that id (`chunkAt`).  `InvH` strengthens `InvB`
with: every buffered payload is the true slice of the file, and the bytes
written so far are exactly the file's prefix below the write cursor. -/

structure InvH (c : Nat) (file : List Nat) (s : DLState) : Prop where
  base : InvB c file.length s
  hdata : ∀ key off sz d, (key, off, sz, d) ∈ s.received_chunks →
    d = sliceL file off sz
  hout : s.out_bytes = file.take s.received_size
  hsaved : s.saved_exception = none

/-- State used to refute the claimed dispatch guard: no request pending,
`DOWNLOAD_MAX_REQUESTS` chunks buffered undrained, one chunk left to
request. -/
def c4state : DLState :=
  { requested_size := 0, received_size := 0, requested_chunks := [],
    received_chunks := (List.range DOWNLOAD_MAX_REQUESTS).map
      (fun i => (i, i, 1, [0])),
    saved_exception := none, expecting := [], request_number := 0,
    out_bytes := [] }

/-- State with one in-flight request (id 5) and an earlier saved error. -/
def c5state : DLState :=
  { requested_size := 4, received_size := 0, requested_chunks := [(5, 0, 4)],
    received_chunks := [], saved_exception := some 11, expecting := [5],
    request_number := 6, out_bytes := [] }

/-- State with one in-flight request (id 3) expecting 4 bytes. -/
def c6state : DLState :=
  { requested_size := 4, received_size := 0, requested_chunks := [(3, 0, 4)],
    received_chunks := [], saved_exception := none, expecting := [3],
    request_number := 4, out_bytes := [] }

/-! ### Association-list lemmas -/

theorem lookupA_mem {α : Type} {k : Nat} {v : α} :
    ∀ {l : List (Nat × α)}, lookupA k l = some v → (k, v) ∈ l := by
  intro l
  induction l with
  | nil => intro h; simp [lookupA] at h
  | cons e rest ih =>
    intro h
    rw [lookupA] at h
    by_cases he : e.1 = k
    · simp only [he, if_pos rfl] at h
      cases h
      rw [← he, Prod.mk.eta]
      exact List.mem_cons_self e rest
    · simp only [if_neg he] at h
      exact List.mem_cons_of_mem _ (ih h)

theorem isSome_lookupA_of_mem {α : Type} {k : Nat} {v : α} :
    ∀ {l : List (Nat × α)}, (k, v) ∈ l → (lookupA k l).isSome := by
  intro l
  induction l with
  | nil => intro h; simp at h
  | cons e rest ih =>
    intro h
    rw [lookupA]
    by_cases he : e.1 = k
    · simp [he]
    · rcases List.mem_cons.1 h with h | h
      · exact absurd (congrArg Prod.fst h.symm) he
      · simpa [he] using ih h

theorem eraseA_sublist {α : Type} (k : Nat) :
    ∀ l : List (Nat × α), List.Sublist (eraseA k l) l := by
  intro l
  induction l with
  | nil => simp [eraseA]
  | cons e rest ih =>
    rw [eraseA]
    by_cases he : e.1 = k
    · simp only [if_pos he]
      exact List.sublist_cons_self e rest
    · simpa [he] using List.Sublist.cons₂ e ih

theorem mem_of_mem_eraseA {α : Type} {k : Nat} {e : Nat × α}
    {l : List (Nat × α)} (h : e ∈ eraseA k l) : e ∈ l :=
  (eraseA_sublist k l).mem h

theorem mem_eraseA_of_ne {α : Type} {k : Nat} {e : Nat × α} :
    ∀ {l : List (Nat × α)}, e ∈ l → e.1 ≠ k → e ∈ eraseA k l := by
  intro l
  induction l with
  | nil => intro h _; simp at h
  | cons a rest ih =>
    intro h hne
    rw [eraseA]
    by_cases ha : a.1 = k
    · rcases List.mem_cons.1 h with h | h
      · exact absurd (h ▸ hne) (by simp [ha])
      · simpa [ha] using h
    · rcases List.mem_cons.1 h with h | h
      · simp [ha, h]
      · simpa [ha] using Or.inr (ih h hne)

theorem length_eraseA_of_lookupA {α : Type} {k : Nat} {v : α} :
    ∀ {l : List (Nat × α)}, lookupA k l = some v →
      l.length = (eraseA k l).length + 1 := by
  intro l
  induction l with
  | nil => intro h; simp [lookupA] at h
  | cons e rest ih =>
    intro h
    rw [lookupA] at h
    rw [eraseA]
    by_cases he : e.1 = k
    · simp [he]
    · simp only [if_neg he] at h ⊢
      simp [ih h]

theorem nodup_keys_eraseA {α : Type} {k : Nat} {l : List (Nat × α)}
    (h : (l.map Prod.fst).Nodup) : ((eraseA k l).map Prod.fst).Nodup :=
  h.sublist ((eraseA_sublist k l).map Prod.fst)

theorem not_mem_eraseA_self {α : Type} {k : Nat} {v : α} :
    ∀ {l : List (Nat × α)}, (l.map Prod.fst).Nodup →
      (k, v) ∉ eraseA k l := by
  intro l
  induction l with
  | nil => intro _ h; simp [eraseA] at h
  | cons e rest ih =>
    intro hnd h
    rw [eraseA] at h
    simp only [List.map_cons, List.nodup_cons] at hnd
    by_cases he : e.1 = k
    · simp only [if_pos he] at h
      exact hnd.1 (he ▸ List.mem_map_of_mem Prod.fst h)
    · simp only [if_neg he] at h
      rcases List.mem_cons.1 h with h | h
      · exact he (congrArg Prod.fst h.symm)
      · exact ih hnd.2 h

theorem mem_eraseA_key_ne {α : Type} {k : Nat} {e : Nat × α}
    {l : List (Nat × α)} (hnd : (l.map Prod.fst).Nodup)
    (h : e ∈ eraseA k l) : e.1 ≠ k := by
  intro hk
  subst hk
  exact not_mem_eraseA_self (v := e.2) hnd (by rw [Prod.mk.eta]; exact h)

/-! ### Loop-exit conditions: the fuel of the embedded `while` loops is the
exact loop variant, so the fuelled loops stop precisely when the source's
guard fails. -/

theorem dispatchGo_guard_false (maxReq maxChunk fs : Nat) :
    ∀ (fuel : Nat) (s : DLState),
      maxReq ≤ fuel + (s.requested_chunks.length + s.received_chunks.length) →
      ¬((dispatchGo maxReq maxChunk fs fuel s).requested_chunks.length +
          (dispatchGo maxReq maxChunk fs fuel s).received_chunks.length < maxReq ∧
        (dispatchGo maxReq maxChunk fs fuel s).requested_size < fs) := by
  intro fuel
  induction fuel with
  | zero => intro s hle h; rw [dispatchGo] at h; omega
  | succ fuel ih =>
    intro s hle
    rw [dispatchGo]
    by_cases hg : s.requested_chunks.length + s.received_chunks.length < maxReq ∧
        s.requested_size < fs
    · rw [if_pos hg]
      apply ih
      simp only [dispatchOne, sftp_async_read_request, List.length_cons]
      omega
    · rw [if_neg hg]
      exact hg

/-- The state returned by the dispatch loop falsifies the dispatch guard:
the window is full or every chunk has been requested. -/
theorem dispatchLoop_post (maxReq maxChunk fs : Nat) (s : DLState) :
    ¬((dispatchLoop maxReq maxChunk fs s).requested_chunks.length +
        (dispatchLoop maxReq maxChunk fs s).received_chunks.length < maxReq ∧
      (dispatchLoop maxReq maxChunk fs s).requested_size < fs) := by
  apply dispatchGo_guard_false
  omega

theorem drainGo_lookupA_none :
    ∀ (fuel : Nat) (s : DLState), s.received_chunks.length ≤ fuel →
      lookupA (drainGo fuel s).received_size (drainGo fuel s).received_chunks = none := by
  intro fuel
  induction fuel with
  | zero =>
    intro s hle
    rw [drainGo]
    have : s.received_chunks = [] := List.length_eq_zero.1 (Nat.le_zero.1 hle)
    rw [this]
    rfl
  | succ fuel ih =>
    intro s hle
    rw [drainGo]
    rcases h : lookupA s.received_size s.received_chunks with _ | ⟨off, sz, d⟩
    · exact h
    · apply ih
      have := length_eraseA_of_lookupA h
      simp only
      omega

/-- The state returned by the drain loop has no chunk buffered at its write
cursor: the drain `while` ran until the source's guard failed. -/
theorem drainLoop_post (s : DLState) :
    lookupA (drainLoop s).received_size (drainLoop s).received_chunks = none :=
  drainGo_lookupA_none s.received_chunks.length s le_rfl

/-! ### Case equations for the response handlers -/

theorem async_response_status_ok (s : DLState) (num : Nat) :
    async_response s num (.status none) = (s, none) := rfl

theorem async_response_status_err (s : DLState) (num code : Nat) :
    async_response s num (.status (some code)) =
      ({ s with saved_exception := some code }, none) := rfl

theorem async_response_other (s : DLState) (num : Nat) :
    async_response s num .other = (s, some .expectedData) := rfl

theorem async_response_data_miss {s : DLState} {num : Nat} (d : List Nat)
    (hl : lookupA num s.requested_chunks = none) :
    async_response s num (.data d) = (s, none) := by
  rw [async_response, hl]

theorem async_response_data_ok {s : DLState} {num off sz : Nat} {d : List Nat}
    (hl : lookupA num s.requested_chunks = some (off, sz)) (hsz : sz = d.length) :
    async_response s num (.data d) =
      ({ s with requested_chunks := eraseA num s.requested_chunks,
                received_chunks := (off, off, sz, d) :: s.received_chunks }, none) := by
  rw [async_response, hl]
  simp only [if_pos hsz]

theorem async_response_data_bad {s : DLState} {num off sz : Nat} {d : List Nat}
    (hl : lookupA num s.requested_chunks = some (off, sz)) (hsz : sz ≠ d.length) :
    async_response s num (.data d) =
      ({ s with requested_chunks := eraseA num s.requested_chunks },
        some (.invalidBlockSize sz d.length)) := by
  rw [async_response, hl]
  simp only [if_neg hsz]

theorem read_response_drop {s : DLState} {num : Nat} {r : SFTPResp}
    (h : num ∉ s.expecting) : read_response s (num, r) = (s, none) := by
  simp only [read_response]
  rw [if_neg h]

theorem read_response_hit {s : DLState} {num : Nat} {r : SFTPResp}
    (h : num ∈ s.expecting) :
    read_response s (num, r) =
      async_response { s with expecting := s.expecting.erase num } num r := by
  simp only [read_response]
  rw [if_pos h]

theorem check_exception_none {s : DLState} (h : s.saved_exception = none) :
    check_exception s = (s, none) := by
  rw [check_exception, h]

theorem check_exception_some {s : DLState} {code : Nat}
    (h : s.saved_exception = some code) :
    check_exception s = ({ s with saved_exception := none },
      some (.statusError code)) := by
  rw [check_exception, h]

theorem invA_initState (maxReq fs : Nat) : InvA maxReq fs initState := by
  refine ⟨le_rfl, Nat.zero_le fs, by simp [initState], ?_, ?_⟩ <;>
    · intro _ _ _
      simp [initState]

theorem invA_step {maxReq maxChunk fs : Nat} {s s' : DLState}
    (hs : InvA maxReq fs s) (hstep : DLStep maxReq maxChunk fs s s') :
    InvA maxReq fs s' := by
  obtain ⟨h1, h2, h3, h4, h5⟩ := hs
  cases hstep with
  | dispatch h =>
    refine ⟨?_, ?_, ?_, ?_, ?_⟩
    · simp only [dispatchOne, sftp_async_read_request]
      omega
    · simp only [dispatchOne, sftp_async_read_request]
      omega
    · simp only [dispatchOne, sftp_async_read_request, List.length_cons]
      omega
    · intro num off sz hmem
      simp only [dispatchOne, sftp_async_read_request, List.mem_cons] at hmem ⊢
      rcases hmem with hmem | hmem
      · cases hmem
        omega
      · have := h4 _ _ _ hmem
        omega
    · intro key off sz d hmem
      simp only [dispatchOne, sftp_async_read_request] at hmem ⊢
      have := h5 _ _ _ _ hmem
      omega
  | deliver p =>
    rcases p with ⟨num, r⟩
    by_cases hin : num ∈ s.expecting
    · rw [read_response_hit hin]
      rcases r with (_ | code) | d | _
      · exact ⟨h1, h2, h3, h4, h5⟩
      · exact ⟨h1, h2, h3, h4, h5⟩
      · rcases hl : lookupA num s.requested_chunks with _ | ⟨off, sz⟩
        · have hl' : lookupA num
              ({ s with expecting := s.expecting.erase num } : DLState).requested_chunks
              = none := hl
          rw [async_response_data_miss d hl']
          exact ⟨h1, h2, h3, h4, h5⟩
        · have hl' : lookupA num
              ({ s with expecting := s.expecting.erase num } : DLState).requested_chunks
              = some (off, sz) := hl
          by_cases hsz : sz = d.length
          · rw [async_response_data_ok hl' hsz]
            refine ⟨h1, h2, ?_, ?_, ?_⟩
            · have hlen := length_eraseA_of_lookupA hl
              simp only [List.length_cons]
              omega
            · intro num' off' sz' hmem'
              exact h4 _ _ _ (mem_of_mem_eraseA hmem')
            · intro key off' sz' d' hmem'
              simp only [List.mem_cons] at hmem'
              rcases hmem' with hmem' | hmem'
              · cases hmem'
                exact ⟨rfl, h4 _ _ _ (lookupA_mem hl)⟩
              · exact h5 _ _ _ _ hmem'
          · rw [async_response_data_bad hl' hsz]
            refine ⟨h1, h2, ?_, ?_, h5⟩
            · have := (eraseA_sublist num s.requested_chunks).length_le
              simp only
              omega
            · intro num' off' sz' hmem'
              exact h4 _ _ _ (mem_of_mem_eraseA hmem')
      · exact ⟨h1, h2, h3, h4, h5⟩
    · rw [read_response_drop hin]
      exact ⟨h1, h2, h3, h4, h5⟩
  | checkErr =>
    rcases hse : s.saved_exception with _ | code
    · rw [check_exception_none hse]
      exact ⟨h1, h2, h3, h4, h5⟩
    · rw [check_exception_some hse]
      exact ⟨h1, h2, h3, h4, h5⟩
  | drainOne off sz d h =>
    have hmem := lookupA_mem h
    have hb := h5 _ _ _ _ hmem
    refine ⟨?_, h2, ?_, ?_, ?_⟩
    · simp only
      omega
    · have := (eraseA_sublist s.received_size s.received_chunks).length_le
      simp only
      omega
    · intro num off' sz' hmem'
      exact h4 _ _ _ hmem'
    · intro key off' sz' d' hmem'
      exact h5 _ _ _ _ (mem_of_mem_eraseA hmem')

theorem invA_of_reach {maxReq maxChunk fs : Nat} {s : DLState}
    (h : Reach maxReq maxChunk fs s) : InvA maxReq fs s := by
  induction h with
  | refl => exact invA_initState maxReq fs
  | tail _ hstep ih => exact invA_step ih hstep

/-! ### The download loop only moves along `DLStep` steps -/

theorem reach_dispatchGo {maxReq maxChunk fs : Nat} :
    ∀ (fuel : Nat) {s : DLState}, Reach maxReq maxChunk fs s →
      Reach maxReq maxChunk fs (dispatchGo maxReq maxChunk fs fuel s) := by
  intro fuel
  induction fuel with
  | zero => intro s h; exact h
  | succ fuel ih =>
    intro s h
    rw [dispatchGo]
    by_cases hg : s.requested_chunks.length + s.received_chunks.length < maxReq ∧
        s.requested_size < fs
    · rw [if_pos hg]
      exact ih (h.tail (DLStep.dispatch s hg))
    · rw [if_neg hg]
      exact h

theorem reach_dispatchLoop {maxReq maxChunk fs : Nat} {s : DLState}
    (h : Reach maxReq maxChunk fs s) :
    Reach maxReq maxChunk fs (dispatchLoop maxReq maxChunk fs s) :=
  reach_dispatchGo _ h

theorem reach_read_response {maxReq maxChunk fs : Nat} {s : DLState}
    (h : Reach maxReq maxChunk fs s) (p : Packet) :
    Reach maxReq maxChunk fs (read_response s p).1 :=
  h.tail (DLStep.deliver s p)

theorem reach_check_exception {maxReq maxChunk fs : Nat} {s : DLState}
    (h : Reach maxReq maxChunk fs s) :
    Reach maxReq maxChunk fs (check_exception s).1 :=
  h.tail (DLStep.checkErr s)

theorem reach_drainGo {maxReq maxChunk fs : Nat} :
    ∀ (fuel : Nat) {s : DLState}, Reach maxReq maxChunk fs s →
      Reach maxReq maxChunk fs (drainGo fuel s) := by
  intro fuel
  induction fuel with
  | zero => intro s h; exact h
  | succ fuel ih =>
    intro s h
    rw [drainGo]
    rcases hl : lookupA s.received_size s.received_chunks with _ | ⟨off, sz, d⟩
    · exact h
    · exact ih (h.tail (DLStep.drainOne s off sz d hl))

theorem reach_drainLoop {maxReq maxChunk fs : Nat} {s : DLState}
    (h : Reach maxReq maxChunk fs s) :
    Reach maxReq maxChunk fs (drainLoop s) :=
  reach_drainGo _ h

/-- Every state the download loop can return in, on any inbound traffic, is
an observable instant: `Reach` covers the loop's executions. -/
theorem reach_downloadLoop {maxReq maxChunk fs : Nat} :
    ∀ (packets : List Packet) {s : DLState}, Reach maxReq maxChunk fs s →
      Reach maxReq maxChunk fs (downloadLoop maxReq maxChunk fs s packets).2 := by
  intro packets
  induction packets with
  | nil =>
    intro s h
    exact reach_dispatchLoop h
  | cons p rest ih =>
    intro s h
    rw [downloadLoop]
    have h1 := reach_dispatchLoop h
    rcases hr : read_response (dispatchLoop maxReq maxChunk fs s) p with ⟨s2, e2⟩
    have h2 : Reach maxReq maxChunk fs s2 := by
      have := reach_read_response h1 p
      rwa [hr] at this
    rcases e2 with _ | e
    · rcases hc : check_exception s2 with ⟨s3, e3⟩
      have h3 : Reach maxReq maxChunk fs s3 := by
        have := reach_check_exception h2
        rwa [hc] at this
      rcases e3 with _ | e
      · simp only [hr, hc]
        by_cases hfin : fs ≤ (drainLoop s3).received_size
        · rw [if_pos hfin]
          exact reach_drainLoop h3
        · rw [if_neg hfin]
          by_cases hge : (drainLoop s3).requested_chunks = [] ∧
              maxReq ≤ (drainLoop s3).received_chunks.length
          · rw [if_pos hge]
            exact reach_drainLoop h3
          · rw [if_neg hge]
            exact ih (reach_drainLoop h3)
      · simp only [hr, hc]
        exact h3
    · simp only [hr]
      exact h2

theorem min_add_chunk (c fs x : Nat) (hx : x < fs) :
    x + min c (fs - x) = min fs (x + c) := by
  omega

theorem invB_initState (c fs : Nat) : InvB c fs initState := by
  refine ⟨by simp [initState], ?_, by simp [initState], by simp [initState],
    0, le_rfl, by simp [initState], ?_, ?_, ?_, ?_⟩
  · intro k hk
    simp [initState] at hk
  · intro num off sz h
    simp [initState] at h
  · intro key off sz d h
    simp [initState] at h
  · intro k _ h2
    simp [initState] at h2
  · intro k off sz off2 sz2 d h _
    simp [initState] at h

theorem invB_dispatchOne {c fs : Nat} (hc : 0 < c) {s : DLState}
    (hB : InvB c fs s) (hlt : s.requested_size < fs) :
    InvB c fs (dispatchOne c fs s) := by
  obtain ⟨hreq, hin, ndreq, ndrecv, W, hWR, hrs, hQ, hV, hC, hX⟩ := hB
  have hRc : s.request_number * c < fs := by omega
  have hrs_eq : s.requested_size = s.request_number * c := by omega
  refine ⟨?_, ?_, ?_, ndrecv, W, ?_, hrs, ?_, ?_, ?_, ?_⟩
  · simp only [dispatchOne, sftp_async_read_request]
    rw [Nat.succ_mul, hrs_eq, ← min_add_chunk c fs _ hRc]
  · simp only [dispatchOne, sftp_async_read_request]
    intro k hk
    rcases Nat.lt_succ_iff_lt_or_eq.1 hk with hk | hk
    · exact hin k hk
    · subst hk
      omega
  · simp only [dispatchOne, sftp_async_read_request, List.map_cons,
      List.nodup_cons]
    refine ⟨?_, ndreq⟩
    intro hmemk
    rcases List.mem_map.1 hmemk with ⟨⟨num, off, sz⟩, hmem, hfst⟩
    have := (hQ _ _ _ hmem).2.1
    simp only at hfst
    omega
  · simp only [dispatchOne, sftp_async_read_request]
    omega
  · simp only [dispatchOne, sftp_async_read_request, List.mem_cons]
    intro num off sz hmem
    rcases hmem with hmem | hmem
    · injection hmem with h1 h23
      injection h23 with h2 h3
      subst h1
      subst h2
      subst h3
      exact ⟨hWR, by omega, hrs_eq, by rw [hrs_eq]⟩
    · have := hQ _ _ _ hmem
      exact ⟨this.1, by omega, this.2.2.1, this.2.2.2⟩
  · simp only [dispatchOne, sftp_async_read_request]
    intro key off sz d hmem
    obtain ⟨k, hk⟩ := hV _ _ _ _ hmem
    exact ⟨k, hk.1, by omega, hk.2.2.1, hk.2.2.2.1, hk.2.2.2.2.1, hk.2.2.2.2.2⟩
  · simp only [dispatchOne, sftp_async_read_request, List.mem_cons]
    intro k hWk hk
    rcases Nat.lt_succ_iff_lt_or_eq.1 hk with hk | hk
    · rcases hC k hWk hk with ⟨off, sz, hmem⟩ | h
      · exact Or.inl ⟨off, sz, Or.inr hmem⟩
      · exact Or.inr h
    · subst hk
      exact Or.inl ⟨s.requested_size, min c (fs - s.requested_size), Or.inl rfl⟩
  · simp only [dispatchOne, sftp_async_read_request, List.mem_cons]
    intro k off sz off2 sz2 d hmem hmem2
    rcases hmem with hmem | hmem
    · have hk : k = s.request_number := congrArg Prod.fst hmem
      obtain ⟨k2, hk2⟩ := hV _ _ _ _ hmem2
      have : k2 = k := Nat.eq_of_mul_eq_mul_right hc hk2.2.2.1.symm
      omega
    · exact hX _ _ _ _ _ _ hmem hmem2

theorem invB_dispatchGo {c fs : Nat} (hc : 0 < c) (maxReq : Nat) :
    ∀ (fuel : Nat) {s : DLState}, InvB c fs s →
      InvB c fs (dispatchGo maxReq c fs fuel s) := by
  intro fuel
  induction fuel with
  | zero => intro s h; exact h
  | succ fuel ih =>
    intro s h
    rw [dispatchGo]
    by_cases hg : s.requested_chunks.length + s.received_chunks.length < maxReq ∧
        s.requested_size < fs
    · rw [if_pos hg]
      exact ih (invB_dispatchOne hc h hg.2)
    · rw [if_neg hg]
      exact h

theorem invB_dispatchLoop {c fs maxReq : Nat} (hc : 0 < c) {s : DLState}
    (h : InvB c fs s) : InvB c fs (dispatchLoop maxReq c fs s) :=
  invB_dispatchGo hc maxReq _ h

theorem invB_set_expecting {c fs : Nat} {s : DLState} (e : List Nat)
    (hB : InvB c fs s) : InvB c fs { s with expecting := e } :=
  ⟨hB.hreq, hB.hin, hB.ndreq, hB.ndrecv, hB.hW⟩

theorem invB_set_saved {c fs : Nat} {s : DLState} (e : List Nat) (se : Option Nat)
    (hB : InvB c fs s) :
    InvB c fs { s with expecting := e, saved_exception := se } :=
  ⟨hB.hreq, hB.hin, hB.ndreq, hB.ndrecv, hB.hW⟩

theorem invB_read_response {c fs : Nat} (hc : 0 < c) {s s2 : DLState}
    {p : Packet} (hB : InvB c fs s)
    (h : read_response s p = (s2, none)) : InvB c fs s2 := by
  obtain ⟨num, r⟩ := p
  by_cases hin : num ∈ s.expecting
  · rw [read_response_hit hin] at h
    rcases r with (_ | code) | d | _
    · rw [async_response_status_ok] at h
      injection h with h1 _
      subst h1
      exact invB_set_expecting _ hB
    · rw [async_response_status_err] at h
      injection h with h1 _
      subst h1
      exact invB_set_saved (s := s) (s.expecting.erase num) (some code) hB
    · rcases hl : lookupA num s.requested_chunks with _ | ⟨off, sz⟩
      · have hl' : lookupA num
            ({ s with expecting := s.expecting.erase num } : DLState).requested_chunks
            = none := hl
        rw [async_response_data_miss d hl'] at h
        injection h with h1 _
        subst h1
        exact invB_set_expecting _ hB
      · have hl' : lookupA num
            ({ s with expecting := s.expecting.erase num } : DLState).requested_chunks
            = some (off, sz) := hl
        by_cases hsz : sz = d.length
        · rw [async_response_data_ok hl' hsz] at h
          injection h with h1 _
          subst h1
          obtain ⟨hreq, hin2, ndreq, ndrecv, W, hWR, hrs, hQ, hV, hC, hX⟩ := hB
          obtain ⟨hWn, hnR, hoff, hszc⟩ := hQ _ _ _ (lookupA_mem hl)
          refine ⟨hreq, hin2, ?_, ?_, W, hWR, hrs, ?_, ?_, ?_, ?_⟩
          · exact nodup_keys_eraseA ndreq
          · simp only [List.map_cons, List.nodup_cons]
            refine ⟨?_, ndrecv⟩
            intro hmemk
            rcases List.mem_map.1 hmemk with ⟨⟨key, off2, sz2, d2⟩, hm, hfst⟩
            simp only at hfst
            rw [hfst, hoff] at hm
            exact hX _ _ _ _ _ _ (lookupA_mem hl) hm
          · intro num2 off2 sz2 hmem
            exact hQ _ _ _ (mem_of_mem_eraseA hmem)
          · simp only [List.mem_cons]
            intro key off2 sz2 d2 hmem
            rcases hmem with hmem | hmem
            · injection hmem with e1 e234
              injection e234 with e2 e34
              injection e34 with e3 e4
              subst e1
              subst e2
              subst e3
              subst e4
              exact ⟨num, hWn, hnR, hoff, hoff, hszc, by rw [← hsz, hszc]⟩
            · exact hV _ _ _ _ hmem
          · simp only [List.mem_cons]
            intro k hWk hkR
            rcases hC k hWk hkR with ⟨off1, sz1, hm⟩ | ⟨off1, sz1, d1, hm⟩
            · by_cases hkn : k = num
              · subst hkn
                refine Or.inr ⟨off, sz, d, Or.inl ?_⟩
                rw [hoff]
              · exact Or.inl ⟨off1, sz1, mem_eraseA_of_ne hm hkn⟩
            · exact Or.inr ⟨off1, sz1, d1, Or.inr hm⟩
          · simp only [List.mem_cons]
            intro k off1 sz1 off2 sz2 d2 hmem hmem2
            rcases hmem2 with hmem2 | hmem2
            · have hkc : k * c = num * c := by
                have := congrArg Prod.fst hmem2
                simpa [hoff] using this
              have hkn : k = num := Nat.eq_of_mul_eq_mul_right hc hkc
              subst hkn
              exact not_mem_eraseA_self ndreq hmem
            · exact hX _ _ _ _ _ _ (mem_of_mem_eraseA hmem) hmem2
        · rw [async_response_data_bad hl' hsz] at h
          injection h with _ h2
          exact Option.noConfusion h2
    · rw [async_response_other] at h
      injection h with _ h2
      exact Option.noConfusion h2
  · rw [read_response_drop hin] at h
    injection h with h1 _
    subst h1
    exact hB

theorem invB_drainStep {c fs : Nat} (hc : 0 < c) {s : DLState} {off sz : Nat}
    {d : List Nat} (hB : InvB c fs s)
    (hl : lookupA s.received_size s.received_chunks = some (off, sz, d)) :
    InvB c fs { s with received_chunks := eraseA s.received_size s.received_chunks,
                       out_bytes := s.out_bytes ++ d,
                       received_size := s.received_size + sz } := by
  obtain ⟨hreq, hin, ndreq, ndrecv, W, hWR, hrs, hQ, hV, hC, hX⟩ := hB
  have hmem := lookupA_mem hl
  obtain ⟨k, hWk, hkR, hkey, hoff, hszc, hdlen⟩ := hV _ _ _ _ hmem
  have hkfs : k * c < fs := hin k hkR
  have hWfs : W * c < fs := by omega
  have hrcv : s.received_size = W * c := by omega
  have hkW : k = W := Nat.eq_of_mul_eq_mul_right hc (by omega)
  subst hkW
  refine ⟨hreq, hin, ndreq, ?_, k + 1, by simp only; omega, ?_, ?_, ?_, ?_, ?_⟩
  · exact nodup_keys_eraseA ndrecv
  · simp only
    rw [Nat.succ_mul, hrcv, hszc]
    exact min_add_chunk c fs _ hWfs
  · intro num off1 sz1 hm
    obtain ⟨h1, h2, h3, h4⟩ := hQ _ _ _ hm
    refine ⟨?_, h2, h3, h4⟩
    rcases Nat.eq_or_lt_of_le h1 with heq | hlt
    · exfalso
      subst heq
      rw [hrcv] at hmem
      exact hX _ _ _ _ _ _ hm hmem
    · omega
  · intro key off1 sz1 d1 hm
    have hm' := mem_of_mem_eraseA hm
    obtain ⟨k1, hk1⟩ := hV _ _ _ _ hm'
    refine ⟨k1, ?_, hk1.2.1, hk1.2.2.1, hk1.2.2.2.1, hk1.2.2.2.2.1,
      hk1.2.2.2.2.2⟩
    rcases Nat.eq_or_lt_of_le hk1.1 with heq | hlt
    · exfalso
      have hkeyeq : key = s.received_size := by
        rw [hk1.2.2.1, ← heq, ← hrcv]
      exact mem_eraseA_key_ne ndrecv hm hkeyeq
    · omega
  · intro k1 hk1 hk1R
    rcases hC k1 (by omega) hk1R with ⟨o1, s1, hm⟩ | ⟨o1, s1, d1, hm⟩
    · exact Or.inl ⟨o1, s1, hm⟩
    · refine Or.inr ⟨o1, s1, d1, mem_eraseA_of_ne hm ?_⟩
      intro hEq
      simp only at hEq
      rw [hrcv] at hEq
      have : k1 = k := Nat.eq_of_mul_eq_mul_right hc hEq
      omega
  · intro k1 o1 s1 o2 s2 d2 hm hm2
    exact hX _ _ _ _ _ _ hm (mem_of_mem_eraseA hm2)

theorem invB_drainGo {c fs : Nat} (hc : 0 < c) :
    ∀ (fuel : Nat) {s : DLState}, InvB c fs s → InvB c fs (drainGo fuel s) := by
  intro fuel
  induction fuel with
  | zero => intro s h; exact h
  | succ fuel ih =>
    intro s hB
    rw [drainGo]
    rcases hl : lookupA s.received_size s.received_chunks with _ | ⟨off, sz, d⟩
    · exact hB
    · exact ih (invB_drainStep hc hB hl)

theorem invB_drainLoop {c fs : Nat} (hc : 0 < c) {s : DLState}
    (hB : InvB c fs s) : InvB c fs (drainLoop s) :=
  invB_drainGo hc _ hB

/-- In an `InvB` state whose write cursor has reached the file size, the
transfer is complete: no pending request remains. -/
theorem done_state {c fs : Nat} {s : DLState} (hB : InvB c fs s)
    (hfin : fs ≤ s.received_size) :
    s.received_size = fs ∧ s.requested_chunks = [] := by
  obtain ⟨hreq, hin, ndreq, ndrecv, W, hWR, hrs, hQ, hV, hC, hX⟩ := hB
  have hrecv : s.received_size = fs := by omega
  refine ⟨hrecv, ?_⟩
  cases hrc : s.requested_chunks with
  | nil => rfl
  | cons e t =>
    exfalso
    obtain ⟨num, off, sz⟩ := e
    have hmem : (num, off, sz) ∈ s.requested_chunks := by
      rw [hrc]
      exact List.mem_cons_self _ _
    obtain ⟨hWn, hnR, _, _⟩ := hQ _ _ _ hmem
    have hnfs := hin num hnR
    have hmul := Nat.mul_le_mul_right c hWn
    omega

/-- In an `InvB` state with no chunk buffered at the write cursor (the
drain loop's exit condition) and the transfer not yet complete, the
`ValueError` guard of the download loop is false. -/
theorem no_comm_guard {maxReq c fs : Nat} (hm : 0 < maxReq)
    {s : DLState} (hB : InvB c fs s)
    (hpost : lookupA s.received_size s.received_chunks = none)
    (hfin : ¬fs ≤ s.received_size) :
    ¬(s.requested_chunks = [] ∧ maxReq ≤ s.received_chunks.length) := by
  rintro ⟨hempty, hfull⟩
  obtain ⟨hreq, hin, ndreq, ndrecv, W, hWR, hrs, hQ, hV, hC, hX⟩ := hB
  rcases Nat.eq_or_lt_of_le hWR with heq | hlt
  · have hnil : s.received_chunks = [] := by
      cases hrc : s.received_chunks with
      | nil => rfl
      | cons e t =>
        exfalso
        obtain ⟨key, off, sz, d⟩ := e
        have hmem : (key, off, sz, d) ∈ s.received_chunks := by
          rw [hrc]
          exact List.mem_cons_self _ _
        obtain ⟨k1, hk1⟩ := hV _ _ _ _ hmem
        omega
    rw [hnil] at hfull
    simp at hfull
    omega
  · rcases hC W le_rfl hlt with ⟨o1, s1, hm1⟩ | ⟨o1, s1, d1, hm1⟩
    · rw [hempty] at hm1
      simp at hm1
    · have hWfs : W * c < fs := by omega
      have hrcv : s.received_size = W * c := by omega
      have hsome := isSome_lookupA_of_mem hm1
      rw [← hrcv, hpost] at hsome
      simp at hsome

/-- `read_response` can only raise the two `SFTPError`s of
`_async_response`, never the loop's `ValueError` or a status error. -/
theorem read_response_raise_shape {s s2 : DLState} {p : Packet} {e : PyErr}
    (h : read_response s p = (s2, some e)) :
    e = .expectedData ∨ ∃ a b, e = .invalidBlockSize a b := by
  obtain ⟨num, r⟩ := p
  by_cases hin : num ∈ s.expecting
  · rw [read_response_hit hin] at h
    rcases r with (_ | code) | d | _
    · rw [async_response_status_ok] at h
      injection h with _ h2
      exact Option.noConfusion h2
    · rw [async_response_status_err] at h
      injection h with _ h2
      exact Option.noConfusion h2
    · rcases hl : lookupA num s.requested_chunks with _ | ⟨off, sz⟩
      · have hl' : lookupA num
            ({ s with expecting := s.expecting.erase num } : DLState).requested_chunks
            = none := hl
        rw [async_response_data_miss d hl'] at h
        injection h with _ h2
        exact Option.noConfusion h2
      · have hl' : lookupA num
            ({ s with expecting := s.expecting.erase num } : DLState).requested_chunks
            = some (off, sz) := hl
        by_cases hsz : sz = d.length
        · rw [async_response_data_ok hl' hsz] at h
          injection h with _ h2
          exact Option.noConfusion h2
        · rw [async_response_data_bad hl' hsz] at h
          injection h with _ h2
          injection h2 with h2
          exact Or.inr ⟨sz, d.length, h2.symm⟩
    · rw [async_response_other] at h
      injection h with _ h2
      injection h2 with h2
      exact Or.inl h2.symm
  · rw [read_response_drop hin] at h
    injection h with _ h2
    exact Option.noConfusion h2

/-- Master lemma about whole runs of the download loop from an `InvB`
state: if the loop returns, the write cursor has reached exactly the file
size and no pending request remains; and the loop never raises the
`ValueError('SFTP communication error ...')`. -/
theorem loop_main (maxReq c fs : Nat) (hm : 0 < maxReq) (hc : 0 < c) :
    ∀ (packets : List Packet) (s : DLState), InvB c fs s →
      (∀ n s', downloadLoop maxReq c fs s packets = (.done n, s') →
        s'.received_size = fs ∧ s'.requested_chunks = [] ∧ n = fs)
      ∧ (downloadLoop maxReq c fs s packets).1.isCommErr = false := by
  intro packets
  induction packets with
  | nil =>
    intro s hB
    constructor
    · intro n s' h
      rw [downloadLoop] at h
      exact absurd (congrArg Prod.fst h) (by simp)
    · rw [downloadLoop]
      rfl
  | cons p rest ih =>
    intro s hB
    have hB1 : InvB c fs (dispatchLoop maxReq c fs s) := invB_dispatchLoop hc hB
    rw [downloadLoop]
    rcases hr : read_response (dispatchLoop maxReq c fs s) p with ⟨s2, e2⟩
    rcases e2 with _ | e
    · have hB2 : InvB c fs s2 := invB_read_response hc hB1 hr
      rcases hcx : check_exception s2 with ⟨s3, e3⟩
      rcases e3 with _ | e
      · have hB3 : InvB c fs s3 := by
          rcases hsv : s2.saved_exception with _ | code
          · rw [check_exception_none hsv] at hcx
            injection hcx with h1 _
            subst h1
            exact hB2
          · rw [check_exception_some hsv] at hcx
            injection hcx with _ h2
            exact Option.noConfusion h2
        have hB4 : InvB c fs (drainLoop s3) := invB_drainLoop hc hB3
        simp only [hr, hcx]
        by_cases hfin : fs ≤ (drainLoop s3).received_size
        · rw [if_pos hfin]
          constructor
          · intro n s' h
            obtain ⟨ha, hb⟩ := done_state hB4 hfin
            injection h with h1 h2
            injection h1 with h1
            subst h2
            exact ⟨ha, hb, by omega⟩
          · rfl
        · rw [if_neg hfin]
          have hguard := no_comm_guard hm hB4 (drainLoop_post s3) hfin
          rw [if_neg hguard]
          exact ih (drainLoop s3) hB4
      · simp only [hr, hcx]
        constructor
        · intro n s' h
          exact absurd (congrArg Prod.fst h) (by simp)
        · rcases hsv : s2.saved_exception with _ | code
          · rw [check_exception_none hsv] at hcx
            injection hcx with _ h2
            exact Option.noConfusion h2
          · rw [check_exception_some hsv] at hcx
            injection hcx with _ h2
            injection h2 with h2
            rw [← h2]
            rfl
    · simp only [hr]
      constructor
      · intro n s' h
        exact absurd (congrArg Prod.fst h) (by simp)
      · rcases read_response_raise_shape hr with he | ⟨a, b, he⟩ <;> subst he <;> rfl

theorem invH_initState (c : Nat) (file : List Nat) : InvH c file initState := by
  refine ⟨invB_initState c file.length, ?_, by simp [initState], rfl⟩
  intro key off sz d h
  simp [initState] at h

theorem invH_dispatchGo {c : Nat} (hc : 0 < c) {file : List Nat} (maxReq : Nat) :
    ∀ (fuel : Nat) {s : DLState}, InvH c file s →
      InvH c file (dispatchGo maxReq c file.length fuel s) := by
  intro fuel
  induction fuel with
  | zero => intro s h; exact h
  | succ fuel ih =>
    intro s h
    rw [dispatchGo]
    by_cases hg : s.requested_chunks.length + s.received_chunks.length < maxReq ∧
        s.requested_size < file.length
    · rw [if_pos hg]
      exact ih ⟨invB_dispatchOne hc h.base hg.2, h.hdata, h.hout, h.hsaved⟩
    · rw [if_neg hg]
      exact h

theorem invH_dispatchLoop {c maxReq : Nat} (hc : 0 < c) {file : List Nat}
    {s : DLState} (h : InvH c file s) :
    InvH c file (dispatchLoop maxReq c file.length s) :=
  invH_dispatchGo hc maxReq _ h

theorem invH_read_response {c : Nat} (hc : 0 < c) {file : List Nat}
    {s : DLState} (hH : InvH c file s) (k : Nat) :
    (read_response s (chunkAt c file k)).2 = none ∧
      InvH c file (read_response s (chunkAt c file k)).1 := by
  obtain ⟨hB, hdata, hout, hsaved⟩ := hH
  rw [chunkAt]
  by_cases hin : k ∈ s.expecting
  · rw [read_response_hit hin]
    rcases hl : lookupA k s.requested_chunks with _ | ⟨off, sz⟩
    · have hl' : lookupA k
          ({ s with expecting := s.expecting.erase k } : DLState).requested_chunks
          = none := hl
      rw [async_response_data_miss _ hl']
      exact ⟨rfl, invB_set_expecting _ hB, hdata, hout, hsaved⟩
    · obtain ⟨W, hWR, hrs, hQ, hV, hC, hX⟩ := hB.hW
      obtain ⟨hWk, hkR, hoff, hszc⟩ := hQ _ _ _ (lookupA_mem hl)
      have hkfs : k * c < file.length := hB.hin k hkR
      have hlen : (sliceL file (k * c) (min c (file.length - k * c))).length
          = min c (file.length - k * c) := by
        simp only [sliceL, List.length_take, List.length_drop]
        omega
      have hsz : sz = (sliceL file (k * c) (min c (file.length - k * c))).length := by
        rw [hlen, hszc]
      have hl' : lookupA k
          ({ s with expecting := s.expecting.erase k } : DLState).requested_chunks
          = some (off, sz) := hl
      rw [async_response_data_ok hl' hsz]
      refine ⟨rfl, ?_, ?_, hout, hsaved⟩
      · have heq : read_response s
            (k, .data (sliceL file (k * c) (min c (file.length - k * c)))) =
            ({ s with expecting := s.expecting.erase k,
                      requested_chunks := eraseA k s.requested_chunks,
                      received_chunks :=
                        (off, off, sz,
                          sliceL file (k * c) (min c (file.length - k * c))) ::
                          s.received_chunks }, none) := by
          rw [read_response_hit hin, async_response_data_ok hl' hsz]
        exact invB_read_response hc hB heq
      · intro key off1 sz1 d1 hm
        rcases List.mem_cons.1 hm with hm | hm
        · injection hm with e1 e234
          injection e234 with e2 e34
          injection e34 with e3 e4
          subst e2
          subst e3
          subst e4
          rw [hoff, hszc]
        · exact hdata _ _ _ _ hm
  · rw [read_response_drop hin]
    exact ⟨rfl, hB, hdata, hout, hsaved⟩

theorem invH_drainStep {c : Nat} (hc : 0 < c) {file : List Nat} {s : DLState}
    {off sz : Nat} {d : List Nat} (hH : InvH c file s)
    (hl : lookupA s.received_size s.received_chunks = some (off, sz, d)) :
    InvH c file
      { s with received_chunks := eraseA s.received_size s.received_chunks,
               out_bytes := s.out_bytes ++ d,
               received_size := s.received_size + sz } := by
  obtain ⟨hB, hdata, hout, hsaved⟩ := hH
  refine ⟨invB_drainStep hc hB hl, ?_, ?_, hsaved⟩
  · intro key off1 sz1 d1 hm
    exact hdata _ _ _ _ (mem_of_mem_eraseA hm)
  · have hmem := lookupA_mem hl
    obtain ⟨W, hWR, hrs, hQ, hV, hC, hX⟩ := hB.hW
    obtain ⟨k, hWk, hkR, hkey, hoff, hszc, hdlen⟩ := hV _ _ _ _ hmem
    have hd := hdata _ _ _ _ hmem
    simp only
    rw [hout, hd, hoff, ← hkey, sliceL]
    exact (List.take_add file s.received_size sz).symm

theorem invH_drainGo {c : Nat} (hc : 0 < c) {file : List Nat} :
    ∀ (fuel : Nat) {s : DLState}, InvH c file s → InvH c file (drainGo fuel s) := by
  intro fuel
  induction fuel with
  | zero => intro s h; exact h
  | succ fuel ih =>
    intro s hH
    rw [drainGo]
    rcases hl : lookupA s.received_size s.received_chunks with _ | ⟨off, sz, d⟩
    · exact hH
    · exact ih (invH_drainStep hc hH hl)

theorem invH_drainLoop {c : Nat} (hc : 0 < c) {file : List Nat} {s : DLState}
    (hH : InvH c file s) : InvH c file (drainLoop s) :=
  invH_drainGo hc _ hH

/-- Round-trip master lemma: from an `InvH` state, if the download loop
completes under any delivery order of honest responses, the bytes written
are exactly the file and the returned count is the file size. -/
theorem loop_honest (maxReq c : Nat) (hc : 0 < c) (file : List Nat) :
    ∀ (order : List Nat) (s : DLState), InvH c file s →
      ∀ n s', downloadLoop maxReq c file.length s (order.map (chunkAt c file))
          = (.done n, s') →
        s'.out_bytes = file ∧ n = file.length := by
  intro order
  induction order with
  | nil =>
    intro s hH n s' h
    rw [List.map_nil, downloadLoop] at h
    exact absurd (congrArg Prod.fst h) (by simp)
  | cons k rest ih =>
    intro s hH n s' h
    rw [List.map_cons, downloadLoop] at h
    have hH1 : InvH c file (dispatchLoop maxReq c file.length s) :=
      invH_dispatchLoop hc hH
    obtain ⟨he2, hH2⟩ := invH_read_response hc hH1 k
    rcases hr : read_response (dispatchLoop maxReq c file.length s)
        (chunkAt c file k) with ⟨s2, e2⟩
    rw [hr] at he2 hH2
    simp only at he2
    subst he2
    simp only [hr] at h
    have hsv2 : s2.saved_exception = none := hH2.hsaved
    simp only [check_exception_none hsv2] at h
    have hH4 : InvH c file (drainLoop s2) := invH_drainLoop hc hH2
    by_cases hfin : file.length ≤ (drainLoop s2).received_size
    · rw [if_pos hfin] at h
      injection h with h1 h2
      injection h1 with h1
      subst h2
      obtain ⟨ha, hb⟩ := done_state hH4.base hfin
      refine ⟨?_, by omega⟩
      rw [hH4.hout, ha]
      exact List.take_length file
    · rw [if_neg hfin] at h
      by_cases hguard : (drainLoop s2).requested_chunks = [] ∧
          maxReq ≤ (drainLoop s2).received_chunks.length
      · rw [if_pos hguard] at h
        exact absurd (congrArg Prod.fst h) (by simp)
      · rw [if_neg hguard] at h
        exact ih (drainLoop s2) hH4 n s' h

/-! ### Single-step characterisation of the dispatch loop -/

theorem dispatchGo_stop {maxReq maxChunk fs : Nat} {s : DLState}
    (hg : ¬(s.requested_chunks.length + s.received_chunks.length < maxReq ∧
      s.requested_size < fs)) (fuel : Nat) :
    dispatchGo maxReq maxChunk fs fuel s = s := by
  cases fuel with
  | zero => rw [dispatchGo]
  | succ fuel => rw [dispatchGo, if_neg hg]

theorem dispatchLoop_unfold {maxReq maxChunk fs : Nat} {s : DLState}
    (hg : s.requested_chunks.length + s.received_chunks.length < maxReq ∧
      s.requested_size < fs) :
    dispatchLoop maxReq maxChunk fs s
      = dispatchLoop maxReq maxChunk fs (dispatchOne maxChunk fs s) := by
  rw [dispatchLoop, dispatchLoop]
  have hsum : maxReq - (s.requested_chunks.length + s.received_chunks.length)
      = (maxReq - ((dispatchOne maxChunk fs s).requested_chunks.length +
          (dispatchOne maxChunk fs s).received_chunks.length)) + 1 := by
    simp only [dispatchOne, sftp_async_read_request, List.length_cons]
    omega
  rw [hsum, dispatchGo, if_pos hg]

/-! ### The claims -/

/-- C1: for every file content and every order in which chunk responses are
delivered, if the download loop completes then the bytes written to the
sink, concatenated, equal the source file byte-for-byte, and the returned
count is the file size (so each chunk is written exactly once, at strictly
increasing offsets, with no gaps, duplicates or reordering). -/
theorem c1_reassembly (file : List Nat) (order : List Nat) (n : Nat)
    (s' : DLState)
    (h : download file.length (order.map (chunkAt DOWNLOAD_MAX_CHUNK_SIZE file))
      = (.done n, s')) :
    s'.out_bytes = file ∧ n = file.length :=
  loop_honest DOWNLOAD_MAX_REQUESTS DOWNLOAD_MAX_CHUNK_SIZE (by decide) file
    order initState (invH_initState _ _) n s' h

/-- C1 witness: a concrete completed transfer. -/
theorem c1_reassembly_witness :
    (DLState.mk 3 3 [] [] none [] 1 [3, 1, 4]).out_bytes = [3, 1, 4] ∧
      3 = ([3, 1, 4] : List Nat).length :=
  c1_reassembly [3, 1, 4] [0] 3 (DLState.mk 3 3 [] [] none [] 1 [3, 1, 4]) rfl

/-- C2: at every observable instant of the download loop
`received_size ≤ requested_size ≤ file_size` holds, and whenever the loop
returns it does so with the write cursor exactly at the file size, no
pending request remaining, and the file size as its return value. -/
theorem c2_cursor_invariants :
    (∀ fs s, Reach DOWNLOAD_MAX_REQUESTS DOWNLOAD_MAX_CHUNK_SIZE fs s →
      s.received_size ≤ s.requested_size ∧ s.requested_size ≤ fs)
    ∧ (∀ fs packets n s', download fs packets = (.done n, s') →
        s'.received_size = fs ∧ s'.requested_chunks = [] ∧ n = fs) := by
  constructor
  · intro fs s h
    have hA := invA_of_reach h
    exact ⟨hA.h1, hA.h2⟩
  · intro fs packets n s' h
    exact (loop_main DOWNLOAD_MAX_REQUESTS DOWNLOAD_MAX_CHUNK_SIZE fs
      (by decide) (by decide) packets initState (invB_initState _ _)).1 n s' h

/-- C2 witness: the invariant at a reachable state and a concrete
completed run. -/
theorem c2_cursor_invariants_witness :
    (initState.received_size ≤ initState.requested_size ∧
      initState.requested_size ≤ 5)
    ∧ ((DLState.mk 1 1 [] [] none [] 1 [9]).received_size = 1 ∧
        (DLState.mk 1 1 [] [] none [] 1 [9]).requested_chunks = [] ∧ 1 = 1) :=
  ⟨c2_cursor_invariants.1 5 initState Relation.ReflTransGen.refl,
   c2_cursor_invariants.2 1 [(0, .data [9])] 1
     (DLState.mk 1 1 [] [] none [] 1 [9]) rfl⟩

/-- C3: for every window limit `maxInFlight ≥ 1` (48 in the code), the
number of issued-but-unresolved read requests — the entries of
`requested_chunks` — never exceeds the limit at any observable instant of
the download loop. -/
theorem c3_window_bound (maxReq maxChunk fs : Nat) (hm : 1 ≤ maxReq)
    (s : DLState) (hs : Reach maxReq maxChunk fs s) :
    s.requested_chunks.length ≤ maxReq := by
  have h3 := (invA_of_reach hs).h3
  omega

/-- C3 witness: the bound at the state reached after one dispatch with the
code's constants. -/
theorem c3_window_bound_witness :
    (DLState.mk 1 0 [(0, 0, 1)] [] none [0] 1 []).requested_chunks.length
      ≤ DOWNLOAD_MAX_REQUESTS :=
  c3_window_bound DOWNLOAD_MAX_REQUESTS DOWNLOAD_MAX_CHUNK_SIZE 1 (by decide)
    (DLState.mk 1 0 [(0, 0, 1)] [] none [0] 1 [])
    (Relation.ReflTransGen.single (DLStep.dispatch initState (by decide)))

/-- C4 counterexample: a state in which the number of unresolved requests
(0) is below the window limit and not all chunks have been requested, yet
the dispatch loop issues no request — because the source's guard also
counts the buffered `received_chunks` (here 48, filling the window). -/
theorem c4_dispatch_cex :
    c4state.requested_chunks.length < DOWNLOAD_MAX_REQUESTS ∧
    c4state.requested_size < 1 ∧
    dispatchLoop DOWNLOAD_MAX_REQUESTS DOWNLOAD_MAX_CHUNK_SIZE 1 c4state
      = c4state ∧
    (dispatchLoop DOWNLOAD_MAX_REQUESTS DOWNLOAD_MAX_CHUNK_SIZE 1
      c4state).request_number = c4state.request_number ∧
    ¬(c4state.requested_chunks.length + c4state.received_chunks.length
      < DOWNLOAD_MAX_REQUESTS) :=
  ⟨by decide, by decide, rfl, rfl, by decide⟩

/-- C4 amended: dispatch of the next chunk happens exactly when
`len(requested_chunks) + len(received_chunks) < DOWNLOAD_MAX_REQUESTS` and
`requested_size < file_size` — the window counts unresolved requests plus
buffered undrained chunks.  When the guard holds, one read request is
issued: a pending chunk is recorded under the transport-assigned id
(`request_number`), the id counter increments, and `requested_size`
advances by the chunk's length; when it fails the loop leaves the state
unchanged, which is not an error. -/
theorem c4_dispatch_amended (maxReq maxChunk fs : Nat) (s : DLState) :
    (s.requested_chunks.length + s.received_chunks.length < maxReq ∧
        s.requested_size < fs →
      dispatchLoop maxReq maxChunk fs s
        = dispatchLoop maxReq maxChunk fs (dispatchOne maxChunk fs s) ∧
      dispatchOne maxChunk fs s = { s with
        requested_chunks := (s.request_number, s.requested_size,
          min maxChunk (fs - s.requested_size)) :: s.requested_chunks,
        requested_size := s.requested_size +
          min maxChunk (fs - s.requested_size),
        expecting := s.request_number :: s.expecting,
        request_number := s.request_number + 1 })
    ∧ (¬(s.requested_chunks.length + s.received_chunks.length < maxReq ∧
          s.requested_size < fs) →
        dispatchLoop maxReq maxChunk fs s = s) := by
  constructor
  · intro hg
    exact ⟨dispatchLoop_unfold hg, rfl⟩
  · intro hg
    rw [dispatchLoop]
    exact dispatchGo_stop hg _

/-- C4 amended witness: both branches at concrete states. -/
theorem c4_dispatch_amended_witness :
    (dispatchLoop 48 32768 1 initState
        = dispatchLoop 48 32768 1 (dispatchOne 32768 1 initState))
    ∧ dispatchLoop 48 32768 0 initState = initState :=
  ⟨((c4_dispatch_amended 48 32768 1 initState).1 (by decide)).1,
   (c4_dispatch_amended 48 32768 0 initState).2 (by decide)⟩

/-- C5 counterexample: an error-status response for the in-flight request
id 5 arriving while an earlier error (code 11) is already saved.  The code
overwrites the saved error with the new one (code 22) — later errors are
not swallowed at the handler level — and the matching pending request is
NOT removed, so the in-flight count does not decrease. -/
theorem c5_first_error_cex :
    (async_response c5state 5 (.status (some 22))).1.saved_exception
        = some 22 ∧
    (async_response c5state 5 (.status (some 22))).1.saved_exception
        ≠ some 11 ∧
    (async_response c5state 5 (.status (some 22))).1.requested_chunks
        = [(5, 0, 4)] ∧
    (async_response c5state 5 (.status (some 22))).2 = none :=
  ⟨rfl, by decide, rfl, rfl⟩

/-- C5 amended: an error-status response stores its error in
`saved_exception` unconditionally (overwriting any earlier saved error);
the pending request is not removed and the in-flight count is unchanged.
The loop re-raises the saved error at the `_check_exception` call
immediately after the single response is processed, so the error surfaced
to the caller is still the first fatal condition the loop observes. -/
theorem c5_first_error_amended (maxReq maxChunk fs : Nat) (s : DLState)
    (num code : Nat) (p : Packet) (rest : List Packet) :
    async_response s num (.status (some code))
      = ({ s with saved_exception := some code }, none)
    ∧ (s.saved_exception = some code →
        check_exception s = ({ s with saved_exception := none },
          some (.statusError code)))
    ∧ (∀ s2, read_response (dispatchLoop maxReq maxChunk fs s) p = (s2, none) →
        s2.saved_exception = some code →
        downloadLoop maxReq maxChunk fs s (p :: rest)
          = (.raised (.statusError code),
              { s2 with saved_exception := none })) := by
  refine ⟨rfl, ?_, ?_⟩
  · intro hsv
    exact check_exception_some hsv
  · intro s2 hr hsv
    rw [downloadLoop]
    simp only [hr, check_exception_some hsv]

/-- C5 amended witness: a concrete run in which the saved status error is
raised by the loop right after the response that stored it. -/
theorem c5_first_error_amended_witness :
    downloadLoop 48 32768 1 initState [(0, .status (some 7))]
      = (.raised (.statusError 7), DLState.mk 1 0 [(0, 0, 1)] [] none [] 1 []) :=
  (c5_first_error_amended 48 32768 1 initState 0 7 (0, .status (some 7)) []).2.2
    (DLState.mk 1 0 [(0, 0, 1)] [] (some 7) [] 1 []) rfl rfl

/-- C6 counterexample: a data response for in-flight id 3 declaring 1 byte
where 4 were requested.  Contrary to the claim, the mismatch is not
handled like the error-status case: nothing is recorded in
`saved_exception` (which stays `none`); instead the `SFTPError` is raised
directly from the handler (the pending request having been popped). -/
theorem c6_mismatch_cex :
    (async_response c6state 3 (.data [9])).2 = some (.invalidBlockSize 4 1) ∧
    (async_response c6state 3 (.data [9])).1.saved_exception = none ∧
    (async_response c6state 3 (.data [9])).1.requested_chunks = [] :=
  ⟨rfl, rfl, rfl⟩

/-- C6 amended: a data response whose payload length differs from the
requested length of its matching pending request pops the request and
raises `SFTPError('Invalid data block size ...')` directly from the
response handler (it is not recorded in `saved_exception`); the raise
propagates out of the loop's read step, so the transfer ends with the
protocol-mismatch error and no further read requests are issued (the
result does not depend on any remaining inbound packets). -/
theorem c6_mismatch_amended (maxReq maxChunk fs : Nat) :
    (∀ s num off sz d, lookupA num s.requested_chunks = some (off, sz) →
      sz ≠ d.length →
      async_response s num (.data d)
        = ({ s with requested_chunks := eraseA num s.requested_chunks },
            some (.invalidBlockSize sz d.length)))
    ∧ (∀ s p s2 e rest,
        read_response (dispatchLoop maxReq maxChunk fs s) p = (s2, some e) →
        downloadLoop maxReq maxChunk fs s (p :: rest) = (.raised e, s2)) := by
  constructor
  · intro s num off sz d hl hsz
    exact async_response_data_bad hl hsz
  · intro s p s2 e rest hr
    rw [downloadLoop]
    simp only [hr]

/-- C6 amended witness: the mismatch raise on a concrete state, and a
concrete run failing with the protocol-mismatch error. -/
theorem c6_mismatch_amended_witness :
    async_response (DLState.mk 1 0 [(0, 0, 1)] [] none [] 1 []) 0
        (.data [5, 5])
      = (DLState.mk 1 0 [] [] none [] 1 [], some (.invalidBlockSize 1 2)) ∧
    downloadLoop 48 32768 1 initState [(0, .data [5, 5])]
      = (.raised (.invalidBlockSize 1 2), DLState.mk 1 0 [] [] none [] 1 []) :=
  ⟨(c6_mismatch_amended 48 32768 1).1
      (DLState.mk 1 0 [(0, 0, 1)] [] none [] 1 []) 0 0 1 [5, 5] rfl
      (by decide),
   (c6_mismatch_amended 48 32768 1).2 initState (0, .data [5, 5])
      (DLState.mk 1 0 [] [] none [] 1 []) (.invalidBlockSize 1 2) [] rfl⟩

/-- C7: after the download loop completes, `download_large_file` compares
the remote stat size against the local file size (the bytes written) and
raises `IOError` exactly when they differ; the size-mismatch error is a
kind distinct from the transport failures. -/
theorem c7_size_check (remote inner : Nat) (packets : List Packet) (n : Nat)
    (s' : DLState) (h : download inner packets = (.done n, s')) :
    ((download_large_file remote inner packets
        = .raisedErr (.fileSizeMismatch remote s'.out_bytes.length))
      ↔ remote ≠ s'.out_bytes.length)
    ∧ (remote = s'.out_bytes.length →
        download_large_file remote inner packets = .ok s'.out_bytes.length)
    ∧ (∀ a b code, PyErr.fileSizeMismatch a b ≠ PyErr.statusError code)
    ∧ (∀ a b x y, PyErr.fileSizeMismatch a b ≠ PyErr.invalidBlockSize x y) := by
  refine ⟨?_, ?_, ?_, ?_⟩
  · simp only [download_large_file, h]
    by_cases he : remote = s'.out_bytes.length
    · rw [if_pos he]
      constructor
      · intro hok
        exact absurd hok (by simp)
      · intro hne
        exact absurd he hne
    · rw [if_neg he]
      exact ⟨fun _ => he, fun _ => rfl⟩
  · intro he
    simp only [download_large_file, h, if_pos he]
  · intro a b code hcontra
    exact PyErr.noConfusion hcontra
  · intro a b x y hcontra
    exact PyErr.noConfusion hcontra

/-- C7 witness: a mismatching stat raises the `IOError`, a matching one
returns normally. -/
theorem c7_size_check_witness :
    download_large_file 5 0 [(0, .status none)]
      = .raisedErr (.fileSizeMismatch 5 0) ∧
    download_large_file 0 0 [(0, .status none)] = .ok 0 :=
  ⟨(c7_size_check 5 0 [(0, .status none)] 0 initState rfl).1.mpr (by decide),
   (c7_size_check 0 0 [(0, .status none)] 0 initState rfl).2.1 rfl⟩

/-- C8: with `file_size == 0` the loop issues zero read requests and
writes zero bytes, but it does not return immediately: the unconditional
`_read_response()` call blocks waiting for one inbound packet (which, with
no request issued, never arrives), contradicting the claim that the loop
returns 0 without waiting for any inbound response.  Only if some stray
packet arrives does the loop return 0. -/
theorem c8_empty_file_blocks :
    download 0 [] = (.blocked, initState) ∧
    download 0 [(0, .status none)] = (.done 0, initState) ∧
    initState.request_number = 0 ∧ initState.out_bytes = [] :=
  ⟨rfl, rfl, rfl, rfl⟩

/-- C9 counterexample: an error-status response whose request id (0) has no
matching pending request is not a no-op in `_async_response`: the handler
never consults the id for status packets, records the error into
`saved_exception`, and the next `_check_exception` raises it as fatal. -/
theorem c9_unmatched_cex :
    (async_response initState 0 (.status (some 13))).1 ≠ initState ∧
    (async_response initState 0 (.status (some 13))).1.saved_exception
      = some 13 ∧
    lookupA 0 initState.requested_chunks = none ∧
    (check_exception (async_response initState 0 (.status (some 13))).1).2
      = some (.statusError 13) :=
  ⟨by decide, rfl, rfl, rfl⟩

/-- C9 amended: a DATA response whose request id has no matching pending
request is a no-op of `_async_response`; an error-STATUS response records
its error regardless of the id.  In the deployed pipeline, however, a
response whose id this downloader never registered (duplicate for an
already-resolved id, or another caller's traffic) is dropped by the
transport client's `_expecting` filter before reaching `_async_response`,
leaving the whole state unchanged with no error. -/
theorem c9_unmatched_amended :
    (∀ s num d, lookupA num s.requested_chunks = none →
      async_response s num (.data d) = (s, none))
    ∧ (∀ s num r, num ∉ s.expecting → read_response s (num, r) = (s, none)) := by
  constructor
  · intro s num d hl
    exact async_response_data_miss d hl
  · intro s num r hn
    exact read_response_drop hn

/-- C9 amended witness: both no-op paths at concrete inputs. -/
theorem c9_unmatched_amended_witness :
    async_response initState 9 (.data [1]) = (initState, none) ∧
    read_response initState (4, .status (some 2)) = (initState, none) :=
  ⟨c9_unmatched_amended.1 initState 9 [1] rfl,
   c9_unmatched_amended.2 initState 4 (.status (some 2)) (by decide)⟩

/-- C10: the `ValueError('SFTP communication error ...')` branch of the
download loop is unreachable: for every file size and every inbound packet
sequence — in particular whenever every data response resolves a
previously issued request with the requested length — the loop never exits
through that branch.  After the drain step, if no request is pending and
the cursor has not reached the file size, the buffered chunks necessarily
contain the chunk at the cursor, so the guard cannot hold. -/
theorem c10_comm_error_unreachable (fs : Nat) (packets : List Packet) :
    (download fs packets).1.isCommErr = false :=
  (loop_main DOWNLOAD_MAX_REQUESTS DOWNLOAD_MAX_CHUNK_SIZE fs (by decide)
    (by decide) packets initState (invB_initState _ _)).2

end PyUtils
